import Mathlib

/-!
Shallow embedding of tools/resources/update.py, the WebRTC resources
download script.  Pure string and integer computations are translated
directly; filesystem and network effects are modelled by explicit state
passing (a directory is a finite map from file names to contents) and an
event trace.  Machine behaviour that the script relies on, such as the
semantics of the Python int constructor, of urljoin, and of the while
loop in the chunked reader, is embedded as executable Lean functions.
-/

namespace Webrtc

/-- Fixed key looked up in the DEPS variable mapping. -/
def DEPS_KEY : String := "webrtc_resources_revision"

/-- Default remote base URL. -/
def REMOTE_URL_BASE : String := "http://commondatastorage.googleapis.com/webrtc-resources"

/-- Name of the version marker file inside the resources directory. -/
def VERSION_FILENAME : String := "webrtc-resources-version"

/-- Fixed leading part of the remote archive name. -/
def FILENAME_STEM : String := "webrtc-resources-"

/-- Fixed extension of the remote archive name. -/
def EXTENSION : String := ".tgz"

/-- Default chunk size of the chunked reader, 10 KiB. -/
def defaultChunkSize : Nat := 10 * 1024

/-! ### Decimal printing of integers

The script formats integers with the percent-d and percent-s directives.
We embed decimal printing as a structurally recursive function; the fuel
argument makes the division loop structural, and the initial fuel n + 1
provably exceeds the number of iterations. -/

/-- Digits of n in decimal, most significant first, empty for n = 0. -/
def natDecimalAux : Nat → Nat → List Char
  | 0, _ => []
  | fuel + 1, n =>
    if n = 0 then []
    else natDecimalAux fuel (n / 10) ++ [Nat.digitChar (n % 10)]

/-- Decimal string of a natural number, as printed by percent-d. -/
def natDecimal (n : Nat) : String :=
  if n = 0 then "0" else String.mk (natDecimalAux (n + 1) n)

/-- Decimal string of an integer, as printed by percent-d. -/
def intDecimal (v : Int) : String :=
  if v < 0 then "-" ++ natDecimal v.natAbs else natDecimal v.natAbs

/-! ### The Python int constructor

int applied to a string strips surrounding whitespace, accepts one
optional sign, and requires at least one decimal digit.  It returns
none here where the Python call raises ValueError. -/

/-- Whitespace recognised by the embedded int parser. -/
def isSpaceChar (c : Char) : Bool :=
  c.toNat == 32 || c.toNat == 9 || c.toNat == 10 || c.toNat == 13

/-- ASCII decimal digit test. -/
def isDigitChar (c : Char) : Bool :=
  48 ≤ c.toNat && c.toNat ≤ 57

/-- Numeric value of an ASCII digit character. -/
def digitVal (c : Char) : Nat := c.toNat - 48

/-- Value of a most-significant-first digit list. -/
def digitsToNat (l : List Char) : Nat :=
  l.foldl (fun a c => 10 * a + digitVal c) 0

/-- Model of the Python int constructor on strings: strip whitespace,
optional sign, then decimal digits; none models ValueError. -/
def pyInt? (s : String) : Option Int :=
  let l := (s.data.dropWhile isSpaceChar).reverse.dropWhile isSpaceChar |>.reverse
  match l with
  | [] => none
  | c :: rest =>
    if c = '-' then
      if !rest.isEmpty && rest.all isDigitChar then
        some (-(digitsToNat rest : Int))
      else none
    else if c = '+' then
      if !rest.isEmpty && rest.all isDigitChar then
        some ((digitsToNat rest : Int))
      else none
    else
      if (c :: rest).all isDigitChar then
        some ((digitsToNat (c :: rest) : Int))
      else none

/-! ### Round trip lemmas for decimal printing and parsing -/

theorem digitChar_facts (d : Nat) (h : d < 10) :
    digitVal (Nat.digitChar d) = d ∧ isDigitChar (Nat.digitChar d) = true := by
  interval_cases d <;> exact And.intro rfl rfl

theorem natDecimalAux_all_digits :
    ∀ fuel n, n < fuel → (natDecimalAux fuel n).all isDigitChar = true := by
  intro fuel
  induction fuel with
  | zero => intro n h; omega
  | succ f ih =>
    intro n h
    by_cases h0 : n = 0
    · simp [natDecimalAux, h0]
    · have hdiv : n / 10 < f := by omega
      have hmod : n % 10 < 10 := Nat.mod_lt _ (by norm_num)
      simp [natDecimalAux, h0, ih _ hdiv, (digitChar_facts _ hmod).2]

theorem natDecimalAux_ne_nil (fuel n : Nat) (h : n < fuel) (h0 : n ≠ 0) :
    natDecimalAux fuel n ≠ [] := by
  cases fuel with
  | zero => omega
  | succ f => simp [natDecimalAux, h0]

theorem natDecimalAux_foldl :
    ∀ fuel n, n < fuel → ∀ acc,
      (natDecimalAux fuel n).foldl (fun a c => 10 * a + digitVal c) acc =
        acc * 10 ^ (natDecimalAux fuel n).length + n := by
  intro fuel
  induction fuel with
  | zero => intro n h; omega
  | succ f ih =>
    intro n h acc
    by_cases h0 : n = 0
    · simp [natDecimalAux, h0]
    · have hdiv : n / 10 < f := by omega
      have hmod : n % 10 < 10 := Nat.mod_lt _ (by norm_num)
      simp only [natDecimalAux, h0, if_false, List.foldl_append, List.foldl_cons,
        List.foldl_nil, List.length_append, List.length_cons, List.length_nil]
      rw [ih _ hdiv acc, (digitChar_facts _ hmod).1]
      have : 10 * (acc * 10 ^ (natDecimalAux f (n / 10)).length + n / 10) + n % 10 =
          acc * (10 ^ (natDecimalAux f (n / 10)).length * 10) + (10 * (n / 10) + n % 10) := by
        ring
      rw [this, Nat.div_add_mod]
      ring_nf

/-- The decimal digits of n parse back to n. -/
theorem digitsToNat_natDecimalAux (n : Nat) :
    digitsToNat (natDecimalAux (n + 1) n) = n := by
  have := natDecimalAux_foldl (n + 1) n (by omega) 0
  simpa [digitsToNat] using this

theorem digit_not_space (c : Char) (h : isDigitChar c = true) : isSpaceChar c = false := by
  simp only [isDigitChar, Bool.and_eq_true, decide_eq_true_eq] at h
  simp only [isSpaceChar, Bool.or_eq_false_iff, beq_eq_false_iff_ne, ne_eq]
  omega

theorem digit_ne_dash (c : Char) (h : isDigitChar c = true) : ¬ c = '-' := by
  intro e; subst e; exact absurd h (by decide)

theorem digit_ne_plus (c : Char) (h : isDigitChar c = true) : ¬ c = '+' := by
  intro e; subst e; exact absurd h (by decide)

theorem dropWhile_space_of_digits (l : List Char) (hd : l.all isDigitChar = true) :
    l.dropWhile isSpaceChar = l := by
  cases l with
  | nil => rfl
  | cons c rest =>
    have hc : isDigitChar c = true := by
      simp only [List.all_cons, Bool.and_eq_true] at hd; exact hd.1
    simp [List.dropWhile_cons, digit_not_space c hc]

theorem pyInt?_of_digits (l : List Char) (hd : l.all isDigitChar = true) (hne : l ≠ []) :
    pyInt? (String.mk l) = some ((digitsToNat l : Nat) : Int) := by
  obtain ⟨c, rest, rfl⟩ := List.exists_cons_of_ne_nil hne
  have hc : isDigitChar c = true := by
    simp only [List.all_cons, Bool.and_eq_true] at hd; exact hd.left
  have h1 : (c :: rest).dropWhile isSpaceChar = c :: rest :=
    dropWhile_space_of_digits _ hd
  have h2 : (c :: rest).reverse.dropWhile isSpaceChar = (c :: rest).reverse :=
    dropWhile_space_of_digits _ (by rw [List.all_reverse]; exact hd)
  simp only [pyInt?, h1, h2, List.reverse_reverse]
  simp [digit_ne_dash c hc, digit_ne_plus c hc, hd]

theorem pyInt?_dash_digits (l : List Char) (hd : l.all isDigitChar = true) (hne : l ≠ []) :
    pyInt? (String.mk ('-' :: l)) = some (-((digitsToNat l : Nat) : Int)) := by
  have hds : isSpaceChar '-' = false := by decide
  have h1 : ('-' :: l).dropWhile isSpaceChar = '-' :: l := by
    simp [List.dropWhile_cons, hds]
  have h2 : ('-' :: l).reverse.dropWhile isSpaceChar = ('-' :: l).reverse := by
    rw [List.reverse_cons]
    cases hL : l.reverse with
    | nil =>
      exact absurd (by simpa using congrArg List.reverse hL) hne
    | cons c r =>
      have hcmem : c ∈ l := by
        rw [← List.mem_reverse, hL]; exact List.mem_cons_self c r
      have hc : isDigitChar c = true := by
        rw [List.all_eq_true] at hd; exact hd c hcmem
      simp [List.dropWhile_cons, digit_not_space c hc]
  simp only [pyInt?, h1, h2, List.reverse_reverse]
  simp [hd, List.isEmpty_iff, hne]

/-- Parsing the printed decimal of an integer recovers the integer: the
version marker round trip. -/
theorem pyInt?_intDecimal (v : Int) : pyInt? (intDecimal v) = some v := by
  by_cases hv : v < 0
  · have hn : v.natAbs ≠ 0 := by omega
    have hd := natDecimalAux_all_digits (v.natAbs + 1) v.natAbs (by omega)
    have hne := natDecimalAux_ne_nil (v.natAbs + 1) v.natAbs (by omega) hn
    have hmk : intDecimal v = String.mk ('-' :: natDecimalAux (v.natAbs + 1) v.natAbs) := by
      simp only [intDecimal, if_pos hv, natDecimal, if_neg hn]
      rfl
    rw [hmk, pyInt?_dash_digits _ hd hne, digitsToNat_natDecimalAux]
    congr 1
    omega
  · by_cases h0 : v.natAbs = 0
    · have : v = 0 := by omega
      subst this
      decide
    · have hd := natDecimalAux_all_digits (v.natAbs + 1) v.natAbs (by omega)
      have hne := natDecimalAux_ne_nil (v.natAbs + 1) v.natAbs (by omega) h0
      have hmk : intDecimal v = String.mk (natDecimalAux (v.natAbs + 1) v.natAbs) := by
        simp only [intDecimal, if_neg hv, natDecimal, if_neg h0]
      rw [hmk, pyInt?_of_digits _ hd hne, digitsToNat_natDecimalAux]
      congr 1
      omega

/-! ### URL construction

The script joins the archive name against the base URL with
urlparse.urljoin after forcing a trailing slash onto the base.  We embed
urljoin restricted to the shapes that occur at the call site: a base URL
whose path part contains at least one slash and a relative reference
with no scheme, slash, query or fragment.  On such inputs urljoin
replaces everything after the last slash of the base by the reference. -/

/-- Model of urlparse.urljoin for a plain relative file name: drop the
segment after the last slash of the base, then append the reference. -/
def urljoin (base rel : String) : String :=
  String.mk ((base.data.reverse.dropWhile (fun c => c != '/')).reverse) ++ rel

/-- Test used by the script on the last character of the base URL. -/
def endsWithSlash (s : String) : Bool :=
  s.data.getLast? == some '/'

/-- Remote archive file name for a desired version. -/
def archiveName (v : Int) : String :=
  FILENAME_STEM ++ intDecimal v ++ EXTENSION

/-- Base URL actually used: the override option if it is a truthy
string, else the default. -/
def effBaseUrl (baseUrlOpt : Option String) : String :=
  match baseUrlOpt with
  | none => REMOTE_URL_BASE
  | some s => if s = "" then REMOTE_URL_BASE else s

/-- Remote archive URL as built in the download routine: force a
trailing slash on the base, then urljoin the archive name. -/
def buildUrl (baseUrl : String) (v : Int) : String :=
  let base := if endsWithSlash baseUrl then baseUrl else baseUrl ++ "/"
  urljoin base (archiveName v)

theorem urljoin_trailing_slash (s rel : String) :
    urljoin (s ++ "/") rel = s ++ "/" ++ rel := by
  unfold urljoin
  have hdata : (s ++ "/").data = s.data ++ ['/'] := by
    cases s; rfl
  rw [hdata, List.reverse_append]
  simp only [List.reverse_cons, List.reverse_nil, List.nil_append, List.cons_append,
    List.dropWhile_cons]
  norm_num
  cases s
  rfl

/-- With a trailing slash forced on the base, the constructed URL is the
base, a slash, and the archive name. -/
theorem buildUrl_no_slash (base : String) (v : Int) (h : endsWithSlash base = false) :
    buildUrl base v = base ++ "/" ++ archiveName v := by
  unfold buildUrl
  rw [h]
  simp only [Bool.false_eq_true, if_false]
  exact urljoin_trailing_slash base (archiveName v)

/-! ### Progress reporting

The progress line divides by the Content-Length total.  We embed the
floating point expression round(float(b) / t * 100, 2) by exact integer
arithmetic on hundredths of a percent with round half away from zero;
the inaccuracy of binary floats is abstracted away, which no claim
depends on.  A zero total raises ZeroDivisionError, modelled as an
error value. -/

/-- Error values standing for the Python exceptions the script can raise. -/
inductive PyErr where
  | urlError
  | httpError (code : Nat)
  | attributeError
  | valueError
  | zeroDivisionError
  | keyError
  | extractError
  deriving DecidableEq, Repr

/-- Hundredths of a percent, rounding half away from zero, of b over t. -/
def percentHundredths (b : Nat) (t : Int) : Int :=
  Int.fdiv (20000 * b + t) (2 * t)

/-- Two digit zero padded decimal, as in the fractional part of a
percent-0.2f format. -/
def pad2 (n : Nat) : String :=
  if n < 10 then "0" ++ natDecimal n else natDecimal n

/-- Rendering of a value held in hundredths with two decimals. -/
def fmt2 (ph : Int) : String :=
  (if ph < 0 then "-" else "") ++ natDecimal (ph.natAbs / 100) ++ "." ++ pad2 (ph.natAbs % 100)

/-- The carriage return terminated progress line written after a chunk. -/
def progressLine (bytesSoFar : Nat) (totalSize : Int) : String :=
  "Downloaded " ++ natDecimal (bytesSoFar / 1024) ++ " of " ++
    intDecimal (Int.fdiv totalSize 1024) ++ " kB (" ++
    fmt2 (percentHundredths bytesSoFar totalSize) ++ "%)" ++ "\r"

/-- Model of the py function that prints one chunk report.  The division
raises ZeroDivisionError when the total is zero; otherwise the line is
written, followed by a newline exactly when bytes so far have reached
the total. -/
def printProgress (bytesSoFar : Nat) (totalSize : Int) : Except PyErr String :=
  if totalSize = 0 then .error .zeroDivisionError
  else .ok (progressLine bytesSoFar totalSize ++
    (if totalSize ≤ (bytesSoFar : Int) then "\n" else ""))

/-! ### The chunked reader

The while loop of the reader is embedded with a fuel argument that makes
it structurally recursive; the fuel passed at the entry point, one more
than the body length, provably exceeds the number of iterations because
every iteration before the last consumes at least one byte. -/

/-- One run of the read loop: take a chunk, stop on an empty chunk,
otherwise report progress and continue on the rest.  Returns the byte
count result together with everything written to standard output. -/
def readChunksGo (chunkSize : Nat) (totalSize : Int) :
    Nat → List Nat → Nat → (Except PyErr Nat) × String
  | 0, _, bytesSoFar => (.ok bytesSoFar, "")
  | fuel + 1, body, bytesSoFar =>
    let chunk := body.take chunkSize
    let bytes := bytesSoFar + chunk.length
    if chunk.length = 0 then (.ok bytes, "")
    else
      match printProgress bytes totalSize with
      | .error e => (.error e, "")
      | .ok s =>
        let r := readChunksGo chunkSize totalSize fuel (body.drop chunkSize) bytes
        (r.1, s ++ r.2)

/-- Model of the chunked reader: read the Content-Length header, which
raises AttributeError when absent and ValueError when unparsable, then
run the read loop from zero bytes. -/
def readChunks (header : Option String) (body : List Nat) (chunkSize : Nat) :
    (Except PyErr Nat) × String :=
  match header with
  | none => (.error .attributeError, "")
  | some h =>
    match pyInt? h with
    | none => (.error .valueError, "")
    | some t => readChunksGo chunkSize t (body.length + 1) body 0

/-- Cumulative byte counts after each nonempty chunk of the body, used
to describe the observable output of the read loop. -/
def chunkCumsGo (chunkSize : Nat) : Nat → List Nat → Nat → List Nat
  | 0, _, _ => []
  | fuel + 1, body, acc =>
    let chunk := body.take chunkSize
    if chunk.length = 0 then []
    else (acc + chunk.length) :: chunkCumsGo chunkSize fuel (body.drop chunkSize) (acc + chunk.length)

/-- Cumulative byte counts after each nonempty chunk. -/
def chunkCums (chunkSize : Nat) (body : List Nat) : List Nat :=
  chunkCumsGo chunkSize (body.length + 1) body 0

/-- Concatenation of a list of strings. -/
def concatStrs : List String → String
  | [] => ""
  | s :: l => s ++ concatStrs l

/-- Output of the reader as the claim words it: a progress line after
each chunk and a trailing newline once the empty read signals
completion. -/
def readChunksStdoutClaim (chunkSize : Nat) (t : Int) (body : List Nat) : String :=
  concatStrs ((chunkCums chunkSize body).map (fun b => progressLine b t)) ++ "\n"

/-- Output of the reader as the code computes it: after each nonempty
chunk one progress line, and a newline exactly when the running byte
count has reached the total. -/
def readChunksStdoutAmended (chunkSize : Nat) (t : Int) (body : List Nat) : String :=
  concatStrs ((chunkCums chunkSize body).map
    (fun b => progressLine b t ++ (if t ≤ (b : Int) then "\n" else "")))

/-! ### Lemmas about the read loop -/

theorem str_append_assoc (a b c : String) : a ++ b ++ c = a ++ (b ++ c) := by
  cases a; cases b; cases c
  simp only [HAppend.hAppend, Append.append, String.append]
  congr 1
  exact List.append_assoc _ _ _

theorem readChunksGo_result (cs : Nat) (t : Int) (hcs : 0 < cs) (ht : ¬ t = 0) :
    ∀ fuel body acc, body.length < fuel →
      (readChunksGo cs t fuel body acc).1 = .ok (acc + body.length) := by
  intro fuel
  induction fuel with
  | zero => intro body acc h; omega
  | succ f ih =>
    intro body acc h
    simp only [readChunksGo]
    by_cases hb : (body.take cs).length = 0
    · have hbody : body = [] := by
        rw [List.length_take] at hb
        have : body.length = 0 := by omega
        exact List.length_eq_zero.mp this
      subst hbody
      simp
    · rw [if_neg hb]
      simp only [printProgress, if_neg ht]
      have hlt : (body.drop cs).length < f := by
        rw [List.length_drop]
        rw [List.length_take] at hb
        omega
      rw [ih (body.drop cs) (acc + (body.take cs).length) hlt]
      simp only [Except.ok.injEq]
      rw [List.length_take, List.length_drop]
      omega

theorem readChunksGo_stdout (cs : Nat) (t : Int) (ht : ¬ t = 0) :
    ∀ fuel body acc, body.length < fuel →
      (readChunksGo cs t fuel body acc).2 =
        concatStrs ((chunkCumsGo cs fuel body acc).map
          (fun b => progressLine b t ++ (if t ≤ (b : Int) then "\n" else ""))) := by
  intro fuel
  induction fuel with
  | zero => intro body acc h; omega
  | succ f ih =>
    intro body acc h
    simp only [readChunksGo, chunkCumsGo]
    by_cases hb : (body.take cs).length = 0
    · rw [if_pos hb, if_pos hb]
      simp [concatStrs]
    · rw [if_neg hb, if_neg hb]
      simp only [printProgress, if_neg ht]
      have hlt : (body.drop cs).length < f := by
        rw [List.length_drop]
        rw [List.length_take] at hb
        omega
      simp only [List.map_cons, concatStrs]
      rw [← ih (body.drop cs) (acc + (body.take cs).length) hlt]

theorem chunkCumsGo_nil (cs : Nat) (acc : Nat) :
    ∀ fuel, chunkCumsGo cs fuel [] acc = [] := by
  intro fuel
  cases fuel with
  | zero => rfl
  | succ f => simp [chunkCumsGo]

theorem readChunksGo_nil (cs : Nat) (t : Int) (fuel acc : Nat) :
    readChunksGo cs t fuel [] acc = (.ok acc, "") := by
  cases fuel with
  | zero => rfl
  | succ f => simp [readChunksGo]

theorem readChunksGo_stdout_exact (cs : Nat) (t : Int) (hcs : 0 < cs) :
    ∀ fuel body (acc : Nat), body.length < fuel → 0 < body.length →
      ((acc : Int) + (body.length : Int) = t) →
      (readChunksGo cs t fuel body acc).2 =
        concatStrs ((chunkCumsGo cs fuel body acc).map (fun b => progressLine b t)) ++ "\n" := by
  intro fuel
  induction fuel with
  | zero => intro body acc h; omega
  | succ f ih =>
    intro body acc h hpos hsum
    have ht : ¬ t = 0 := by omega
    have hb : ¬ (body.take cs).length = 0 := by
      rw [List.length_take]; omega
    simp only [readChunksGo, chunkCumsGo, if_neg hb]
    simp only [printProgress, if_neg ht]
    by_cases hfin : body.length ≤ cs
    · have htake : (body.take cs).length = body.length := by
        rw [List.length_take]; omega
      have hdrop : body.drop cs = [] := by
        apply List.length_eq_zero.mp
        rw [List.length_drop]; omega
      have hreach : t ≤ ((acc + (body.take cs).length : Nat) : Int) := by
        rw [htake]; push_cast; omega
      rw [if_pos hreach, hdrop, chunkCumsGo_nil, readChunksGo_nil]
      simp only [List.map_cons, List.map_nil, concatStrs]
      rw [String.append_empty, String.append_empty]
    · have hreach : ¬ t ≤ ((acc + (body.take cs).length : Nat) : Int) := by
        rw [List.length_take] at hb ⊢
        have : min cs body.length = cs := by omega
        rw [this]; push_cast; omega
      rw [if_neg hreach]
      have hlt : (body.drop cs).length < f := by
        rw [List.length_drop]; omega
      have hdpos : 0 < (body.drop cs).length := by
        rw [List.length_drop]; omega
      have hmin : min cs body.length = cs := by omega
      have hsum2 : (((acc + (body.take cs).length : Nat) : Int) + ((body.drop cs).length : Int) = t) := by
        rw [List.length_take, List.length_drop, hmin]
        push_cast
        omega
      rw [String.append_empty]
      simp only [List.map_cons, concatStrs]
      rw [ih (body.drop cs) (acc + (body.take cs).length) hlt hdpos hsum2]
      rw [str_append_assoc]

/-! ### Claims about the chunked reader -/

/-- C9, counterexample.  The claim predicts a trailing newline once the
empty read signals completion; on an empty body the reader emits no
output at all, while the claim output would be a bare newline. -/
theorem c9_counterexample :
    (readChunks (some "1") [] defaultChunkSize).2 = "" ∧
    readChunksStdoutClaim defaultChunkSize 1 [] = "\n" ∧
    ¬ (readChunks (some "1") [] defaultChunkSize).2 =
        readChunksStdoutClaim defaultChunkSize 1 [] := by
  decide

/-- C9, amended.  The reader consumes the body in chunks of the fixed
10 KiB default size and reads it fully; its output is one carriage
return terminated progress line per nonempty chunk, showing bytes so
far, the total from Content-Length and a two decimal percentage, with a
newline emitted as part of the progress report of the chunk at which
bytes so far reach the total.  When the body length equals the
Content-Length total, exactly the last progress report carries the
newline, so the output is the progress lines followed by one trailing
newline; the final empty read terminates the loop with no output of its
own. -/
theorem c9_chunks_amended (h : String) (t : Int) (body : List Nat)
    (hh : pyInt? h = some t) (ht : ¬ t = 0) :
    (readChunks (some h) body defaultChunkSize).1 = .ok body.length ∧
    (readChunks (some h) body defaultChunkSize).2 =
      readChunksStdoutAmended defaultChunkSize t body ∧
    (0 < body.length → (body.length : Int) = t →
      (readChunks (some h) body defaultChunkSize).2 =
        concatStrs ((chunkCums defaultChunkSize body).map (fun b => progressLine b t)) ++ "\n") := by
  have hcs : 0 < defaultChunkSize := by norm_num [defaultChunkSize]
  refine ⟨?_, ?_, ?_⟩
  · simp only [readChunks, hh]
    rw [readChunksGo_result defaultChunkSize t hcs ht (body.length + 1) body 0 (by omega)]
    rw [Nat.zero_add]
  · simp only [readChunks, hh, readChunksStdoutAmended, chunkCums]
    exact readChunksGo_stdout defaultChunkSize t ht (body.length + 1) body 0 (by omega)
  · intro hpos hlen
    simp only [readChunks, hh, chunkCums]
    exact readChunksGo_stdout_exact defaultChunkSize t hcs (body.length + 1) body 0
      (by omega) hpos (by push_cast; omega)

/-- C9, witness: a three byte body with Content-Length three, read with
the default chunk size. -/
theorem c9_witness :
    pyInt? "3" = some 3 ∧
    (readChunks (some "3") [1, 2, 3] defaultChunkSize).1 = .ok 3 ∧
    (readChunks (some "3") [1, 2, 3] defaultChunkSize).2 =
      readChunksStdoutAmended defaultChunkSize 3 [1, 2, 3] :=
  ⟨by decide, (c9_chunks_amended "3" 3 [1, 2, 3] (by decide) (by decide)).1,
    (c9_chunks_amended "3" 3 [1, 2, 3] (by decide) (by decide)).2.1⟩

/-- C10.  The progress computation divides by the Content-Length total
with no zero guard: with a zero total it raises ZeroDivisionError, with
a positive total it succeeds; and in a run of the reader with a zero
Content-Length only the empty body avoids the division, because the
loop breaks on the empty read before reporting progress and returns
zero bytes with no output. -/
theorem c10_division_guard :
    (∀ b : Nat, printProgress b 0 = .error .zeroDivisionError) ∧
    (∀ (b : Nat) (t : Int), 0 < t → ∃ s, printProgress b t = .ok s) ∧
    (∀ h, pyInt? h = some 0 →
      readChunks (some h) [] defaultChunkSize = (.ok 0, "")) ∧
    (∀ h (body : List Nat), pyInt? h = some 0 → ¬ body = [] →
      (readChunks (some h) body defaultChunkSize).1 = .error .zeroDivisionError) := by
  refine ⟨?_, ?_, ?_, ?_⟩
  · intro b; simp [printProgress]
  · intro b t htpos
    have ht0 : ¬ t = 0 := by omega
    refine ⟨progressLine b t ++ (if t ≤ (b : Int) then "\n" else ""), ?_⟩
    simp [printProgress, ht0]
  · intro h hh
    simp [readChunks, hh, readChunksGo]
  · intro h body hh hne
    simp only [readChunks, hh]
    cases body with
    | nil => exact absurd rfl hne
    | cons x rest =>
      have hb : ¬ ((x :: rest).take defaultChunkSize).length = 0 := by
        rw [List.length_take]
        simp only [List.length_cons, defaultChunkSize]
        omega
      have hcs0 : ¬ defaultChunkSize = 0 := by norm_num [defaultChunkSize]
      simp [readChunksGo, hb, printProgress, hcs0]

/-- C10, witness: a one byte body with Content-Length zero hits the
division by zero; progress at total one is fine. -/
theorem c10_witness :
    (readChunks (some "0") [7] defaultChunkSize).1 = .error .zeroDivisionError ∧
    readChunks (some "0") [] defaultChunkSize = (.ok 0, "") :=
  ⟨c10_division_guard.2.2.2 "0" [7] (by decide) (by decide),
    c10_division_guard.2.2.1 "0" (by decide)⟩

/-! ### Filesystem, network and event model

The resources directory is a finite map from file names to contents,
with none meaning the directory does not exist.  Effects are recorded
in an event trace.  The network is an input describing how the single
HTTP GET behaves, and the tar extractor is an input function from
archive bytes to either the extracted files or a failure that may leave
partial files behind. -/

/-- Contents of the resources directory. -/
structure ResDir where
  files : List (String × String)
  deriving DecidableEq, Repr

/-- Effects performed by a run, in order. -/
inductive Event where
  | print (s : String)
  | mkdirDownloads
  | mkTempDir
  | rmTempDir
  | urlopen (url : String)
  | rmtreeDownloads
  | extractArchive
  | writeMarker (v : Int)
  deriving DecidableEq, Repr

/-- Behaviour of the single HTTP GET: connection failure, an HTTP error
status raised by urlopen, or a response carrying an optional
Content-Length header and a body. -/
inductive NetResult where
  | connError
  | httpError (code : Nat)
  | ok (header : Option String) (body : List Nat)
  deriving DecidableEq, Repr

/-- Behaviour of tar extraction on the downloaded bytes: the extracted
files, or a failure leaving some partial files in the fresh directory. -/
inductive ExtractRes where
  | ok (files : List (String × String))
  | fail (leftoverFiles : List (String × String))
  deriving DecidableEq, Repr

/-- Overwrite or create a file inside a directory map. -/
def setFile (files : List (String × String)) (name content : String) :
    List (String × String) :=
  (name, content) :: files.filter (fun p => p.1 ≠ name)

/-- Marker file content of a possibly missing directory. -/
def markerOf (dir : Option ResDir) : Option String :=
  match dir with
  | none => none
  | some d => d.files.lookup VERSION_FILENAME

/-- Model of the current version reader: soft zero when the marker file
does not exist, hard ValueError when it exists but does not parse. -/
def getCurrentVersion (dir : Option ResDir) : Except PyErr Int :=
  match markerOf dir with
  | none => .ok 0
  | some s =>
    match pyInt? s with
    | none => .error .valueError
    | some n => .ok n

/-- Model of the desired version reader over the evaluated DEPS
variable mapping: KeyError when the key is absent, ValueError when the
value does not parse as an integer.  Evaluation of the DEPS file itself
is abstracted into the association list of its variable bindings. -/
def getDesiredVersion (depsVars : List (String × String)) : Except PyErr Int :=
  match depsVars.lookup DEPS_KEY with
  | none => .error .keyError
  | some s =>
    match pyInt? s with
    | none => .error .valueError
    | some n => .ok n

/-- Result of the download routine: outcome, resources directory state,
events in order, and whether the temporary directory still exists. -/
structure PDOut where
  result : Except PyErr Unit
  dir : Option ResDir
  events : List Event
  tempDirExists : Bool
  deriving Repr

/-- Model of the download routine.  It creates a temporary directory,
builds the archive URL, opens it, streams the body, then removes the
resources directory, recreates it, extracts the archive into it and
writes the marker file; the finally clause removes the temporary
directory on every path. -/
def performDownload (net : NetResult) (extract : List Nat → ExtractRes)
    (baseUrl : String) (desiredVersion : Int) (dir : Option ResDir) : PDOut :=
  let url := buildUrl baseUrl desiredVersion
  let pre := [Event.mkTempDir, Event.print ("Downloading: " ++ url), Event.urlopen url]
  match net with
  | .connError =>
    ⟨.error .urlError, dir, pre ++ [Event.rmTempDir], false⟩
  | .httpError c =>
    ⟨.error (.httpError c), dir, pre ++ [Event.rmTempDir], false⟩
  | .ok header body =>
    match (readChunks header body defaultChunkSize).1 with
    | .error e => ⟨.error e, dir, pre ++ [Event.rmTempDir], false⟩
    | .ok _ =>
      let mid := [Event.print "Removing old resources", Event.rmtreeDownloads,
        Event.mkdirDownloads, Event.extractArchive]
      match extract body with
      | .fail leftoverFiles =>
        ⟨.error .extractError, some ⟨leftoverFiles⟩, pre ++ mid ++ [Event.rmTempDir], false⟩
      | .ok files =>
        ⟨.ok (), some ⟨setFile files VERSION_FILENAME (intDecimal desiredVersion)⟩,
          pre ++ mid ++ [Event.print "Extracted resource files",
            Event.writeMarker desiredVersion] ++ [Event.rmTempDir], false⟩

/-- Inputs of a whole run: environment variable, parsed options, the
evaluated DEPS bindings, the initial resources directory, and the
behaviour of network and extractor. -/
structure MainIn where
  skipEnv : Option String
  force : Bool
  baseUrlOpt : Option String
  depsVars : List (String × String)
  dir : Option ResDir
  net : NetResult
  extract : List Nat → ExtractRes

/-- Result of a whole run. -/
structure MainOut where
  result : Except PyErr Unit
  dir : Option ResDir
  events : List Event
  tempDirExists : Bool

/-- Truthiness of the optional environment variable, as tested by the
Python if statement: present and nonempty. -/
def truthy : Option String → Bool
  | none => false
  | some s => !(s == "")

/-- The script creates the downloads directory before anything else when
it does not exist. -/
def ensureDir (dir : Option ResDir) : Option ResDir × List Event :=
  match dir with
  | none => (some ⟨[]⟩, [Event.mkdirDownloads])
  | some d => (some d, [])

/-- Status line printed by the current version reader when a marker file
is present and parses. -/
def foundEv (dir : Option ResDir) (cur : Int) : List Event :=
  match markerOf dir with
  | none => []
  | some _ => [Event.print ("Found downloaded resources: version: " ++ intDecimal cur)]

/-- The run after the downloads directory has been ensured: read both
versions, then download when forced or on mismatch, else report. -/
def mainAfterDir (inp : MainIn) (dir1 : Option ResDir) (ev1 : List Event) : MainOut :=
  match getCurrentVersion dir1 with
  | .error e => ⟨.error e, dir1, ev1, false⟩
  | .ok cur =>
    match getDesiredVersion inp.depsVars with
    | .error e => ⟨.error e, dir1, ev1 ++ foundEv dir1 cur, false⟩
    | .ok des =>
      let evRead := ev1 ++ foundEv dir1 cur ++
        [Event.print ("Version in DEPS file: " ++ intDecimal des)]
      if des ≠ cur ∨ inp.force = true then
        let pd := performDownload inp.net inp.extract (effBaseUrl inp.baseUrlOpt) des dir1
        ⟨pd.result, pd.dir, evRead ++ pd.events, pd.tempDirExists⟩
      else
        ⟨.ok (), dir1,
          evRead ++ [Event.print ("Already have correct version: " ++ intDecimal cur)], false⟩

/-- Model of the entry point: the environment switch short circuits
everything; otherwise the downloads directory is ensured and the
version gated download sequence runs. -/
def mainRun (inp : MainIn) : MainOut :=
  if truthy inp.skipEnv then
    ⟨.ok (), inp.dir,
      [Event.print "Skipping resources download since WEBRTC_SKIP_RESOURCES_DOWNLOAD set"],
      false⟩
  else
    mainAfterDir inp (ensureDir inp.dir).1 (ensureDir inp.dir).2

/-- Events that make up the sync sequence proper: the HTTP GET, the
extraction and the marker write. -/
def isSyncEvent : Event → Bool
  | .urlopen _ => true
  | .extractArchive => true
  | .writeMarker _ => true
  | _ => false

/-! ### Shape lemmas about the orchestrator -/

theorem mainRun_up_to_date (inp : MainIn) (cur des : Int)
    (hskip : truthy inp.skipEnv = false)
    (hcur : getCurrentVersion (ensureDir inp.dir).1 = .ok cur)
    (hdes : getDesiredVersion inp.depsVars = .ok des)
    (hno : ¬ (des ≠ cur ∨ inp.force = true)) :
    mainRun inp = ⟨.ok (), (ensureDir inp.dir).1,
      (ensureDir inp.dir).2 ++ foundEv (ensureDir inp.dir).1 cur ++
        [Event.print ("Version in DEPS file: " ++ intDecimal des)] ++
        [Event.print ("Already have correct version: " ++ intDecimal cur)], false⟩ := by
  rw [mainRun, if_neg (by simp [hskip])]
  rw [mainAfterDir, hcur]
  simp only [hdes]
  rw [if_neg hno]

theorem mainRun_triggered (inp : MainIn) (cur des : Int)
    (hskip : truthy inp.skipEnv = false)
    (hcur : getCurrentVersion (ensureDir inp.dir).1 = .ok cur)
    (hdes : getDesiredVersion inp.depsVars = .ok des)
    (htrig : des ≠ cur ∨ inp.force = true) :
    mainRun inp =
      ⟨(performDownload inp.net inp.extract (effBaseUrl inp.baseUrlOpt) des (ensureDir inp.dir).1).result,
       (performDownload inp.net inp.extract (effBaseUrl inp.baseUrlOpt) des (ensureDir inp.dir).1).dir,
       (ensureDir inp.dir).2 ++ foundEv (ensureDir inp.dir).1 cur ++
         [Event.print ("Version in DEPS file: " ++ intDecimal des)] ++
         (performDownload inp.net inp.extract (effBaseUrl inp.baseUrlOpt) des (ensureDir inp.dir).1).events,
       (performDownload inp.net inp.extract (effBaseUrl inp.baseUrlOpt) des (ensureDir inp.dir).1).tempDirExists⟩ := by
  rw [mainRun, if_neg (by simp [hskip])]
  rw [mainAfterDir, hcur]
  simp only [hdes]
  rw [if_pos htrig]

/-- Field equations of a triggered run, convenient for rewriting. -/
theorem mainRun_triggered_fields (inp : MainIn) (cur des : Int)
    (hskip : truthy inp.skipEnv = false)
    (hcur : getCurrentVersion (ensureDir inp.dir).1 = .ok cur)
    (hdes : getDesiredVersion inp.depsVars = .ok des)
    (htrig : des ≠ cur ∨ inp.force = true) :
    (mainRun inp).result =
      (performDownload inp.net inp.extract (effBaseUrl inp.baseUrlOpt) des (ensureDir inp.dir).1).result ∧
    (mainRun inp).dir =
      (performDownload inp.net inp.extract (effBaseUrl inp.baseUrlOpt) des (ensureDir inp.dir).1).dir ∧
    (mainRun inp).events =
      (ensureDir inp.dir).2 ++ foundEv (ensureDir inp.dir).1 cur ++
        [Event.print ("Version in DEPS file: " ++ intDecimal des)] ++
        (performDownload inp.net inp.extract (effBaseUrl inp.baseUrlOpt) des (ensureDir inp.dir).1).events ∧
    (mainRun inp).tempDirExists =
      (performDownload inp.net inp.extract (effBaseUrl inp.baseUrlOpt) des (ensureDir inp.dir).1).tempDirExists := by
  rw [mainRun_triggered inp cur des hskip hcur hdes htrig]
  exact ⟨rfl, rfl, rfl, rfl⟩

theorem ensureDir_events (dir : Option ResDir) :
    (ensureDir dir).2 = [] ∨ (ensureDir dir).2 = [Event.mkdirDownloads] := by
  cases dir <;> simp [ensureDir]

theorem foundEv_cases (dir : Option ResDir) (cur : Int) :
    foundEv dir cur = [] ∨ ∃ s, foundEv dir cur = [Event.print s] := by
  unfold foundEv
  cases markerOf dir <;> simp

theorem mem_ensureDir_events {dir : Option ResDir} {e : Event}
    (h : e ∈ (ensureDir dir).2) : e = Event.mkdirDownloads := by
  cases dir with
  | none => simpa [ensureDir] using h
  | some d => simp [ensureDir] at h

theorem mem_foundEv {dir : Option ResDir} {cur : Int} {e : Event}
    (h : e ∈ foundEv dir cur) : ∃ s, e = Event.print s := by
  unfold foundEv at h
  cases hm : markerOf dir with
  | none => rw [hm] at h; simp at h
  | some s2 => rw [hm] at h; simp at h; exact ⟨_, h⟩

/-- The prefix of the trace written before the download routine holds no
sync event, no temp dir event and no rmtree. -/
theorem benign_read_events (dirA dirB : Option ResDir) (cur : Int) (s : String) :
    ∀ e, e ∈ (ensureDir dirA).2 ++ foundEv dirB cur ++ [Event.print s] →
      isSyncEvent e = false ∧ e ≠ Event.mkTempDir ∧ e ≠ Event.rmtreeDownloads ∧
      (∀ w, e ≠ Event.writeMarker w) := by
  intro e he
  rw [List.mem_append, List.mem_append] at he
  rcases he with (he | he) | he
  · rw [mem_ensureDir_events he]; simp [isSyncEvent]
  · obtain ⟨s3, rfl⟩ := mem_foundEv he; simp [isSyncEvent]
  · simp at he; subst he; simp [isSyncEvent]

theorem performDownload_events_shape (net : NetResult) (extract : List Nat → ExtractRes)
    (baseUrl : String) (v : Int) (dir : Option ResDir) :
    ∃ rest, (performDownload net extract baseUrl v dir).events =
      Event.mkTempDir :: Event.print ("Downloading: " ++ buildUrl baseUrl v) ::
        Event.urlopen (buildUrl baseUrl v) :: rest := by
  cases net with
  | connError => exact ⟨_, rfl⟩
  | httpError c => exact ⟨_, rfl⟩
  | ok header body =>
    cases hrc : (readChunks header body defaultChunkSize).1 with
    | error e => exact ⟨[Event.rmTempDir], by simp [performDownload, hrc]⟩
    | ok n =>
      cases hex : extract body with
      | fail pf =>
        exact ⟨[Event.print "Removing old resources", Event.rmtreeDownloads,
          Event.mkdirDownloads, Event.extractArchive, Event.rmTempDir],
          by simp [performDownload, hrc, hex]⟩
      | ok files =>
        exact ⟨[Event.print "Removing old resources", Event.rmtreeDownloads,
          Event.mkdirDownloads, Event.extractArchive, Event.print "Extracted resource files",
          Event.writeMarker v, Event.rmTempDir],
          by simp [performDownload, hrc, hex]⟩

theorem performDownload_filter (net : NetResult) (extract : List Nat → ExtractRes)
    (baseUrl : String) (v : Int) (dir : Option ResDir) :
    ((performDownload net extract baseUrl v dir).result = .ok () →
      (performDownload net extract baseUrl v dir).events.filter isSyncEvent =
        [Event.urlopen (buildUrl baseUrl v), Event.extractArchive, Event.writeMarker v]) ∧
    (∀ e, (performDownload net extract baseUrl v dir).result = .error e →
      ∀ w, Event.writeMarker w ∉ (performDownload net extract baseUrl v dir).events) := by
  cases net with
  | connError => simp [performDownload, isSyncEvent]
  | httpError c => simp [performDownload, isSyncEvent]
  | ok header body =>
    cases hrc : (readChunks header body defaultChunkSize).1 with
    | error e => simp [performDownload, hrc, isSyncEvent]
    | ok n =>
      cases hex : extract body with
      | fail pf => simp [performDownload, hrc, hex, isSyncEvent]
      | ok files => simp [performDownload, hrc, hex, isSyncEvent]

/-- Facts about an up to date run: success, unchanged directory, no sync
activity, and the final status line. -/
theorem mainRun_up_to_date_facts (inp : MainIn) (cur des : Int)
    (hskip : truthy inp.skipEnv = false)
    (hcur : getCurrentVersion (ensureDir inp.dir).1 = .ok cur)
    (hdes : getDesiredVersion inp.depsVars = .ok des)
    (hno : ¬ (des ≠ cur ∨ inp.force = true)) :
    (mainRun inp).result = .ok () ∧
    (mainRun inp).dir = (ensureDir inp.dir).1 ∧
    (mainRun inp).events.filter isSyncEvent = [] ∧
    Event.mkTempDir ∉ (mainRun inp).events ∧
    Event.rmtreeDownloads ∉ (mainRun inp).events ∧
    (∀ w, Event.writeMarker w ∉ (mainRun inp).events) ∧
    (∀ u, Event.urlopen u ∉ (mainRun inp).events) ∧
    (mainRun inp).events.getLast? =
      some (Event.print ("Already have correct version: " ++ intDecimal cur)) := by
  rw [mainRun_up_to_date inp cur des hskip hcur hdes hno]
  rcases ensureDir_events inp.dir with h1 | h1 <;>
    rcases foundEv_cases (ensureDir inp.dir).1 cur with h2 | ⟨s2, h2⟩ <;>
      rw [h1, h2] <;>
        simp [isSyncEvent, List.getLast?_concat]

/-! ### Claims about the orchestrator -/

/-- C1.  The download and install sequence runs exactly when the force
flag is set or the desired version differs from the current version;
when neither holds the run succeeds, performs no sync activity and ends
with the status line reporting the current version. -/
theorem c1_download_iff (inp : MainIn) (cur des : Int)
    (hskip : truthy inp.skipEnv = false)
    (hcur : getCurrentVersion (ensureDir inp.dir).1 = .ok cur)
    (hdes : getDesiredVersion inp.depsVars = .ok des) :
    (Event.mkTempDir ∈ (mainRun inp).events ↔ (des ≠ cur ∨ inp.force = true)) ∧
    (¬ (des ≠ cur ∨ inp.force = true) →
      (mainRun inp).result = .ok () ∧
      (mainRun inp).events.filter isSyncEvent = [] ∧
      (mainRun inp).events.getLast? =
        some (Event.print ("Already have correct version: " ++ intDecimal cur))) := by
  by_cases htrig : des ≠ cur ∨ inp.force = true
  · refine ⟨⟨fun _ => htrig, fun _ => ?_⟩, fun hno => absurd htrig hno⟩
    rw [mainRun_triggered inp cur des hskip hcur hdes htrig]
    obtain ⟨rest, hre⟩ := performDownload_events_shape inp.net inp.extract
      (effBaseUrl inp.baseUrlOpt) des (ensureDir inp.dir).1
    simp [hre]
  · have hfacts := mainRun_up_to_date_facts inp cur des hskip hcur hdes htrig
    refine ⟨⟨fun hmem => absurd hmem hfacts.2.2.2.1, fun h => absurd h htrig⟩, fun _ => ?_⟩
    exact ⟨hfacts.1, hfacts.2.2.1, hfacts.2.2.2.2.2.2.2⟩

/-- C1, witness: a run whose marker and manifest both hold version 5
with the force flag unset triggers no download and reports the version. -/
theorem c1_witness :
    (Event.mkTempDir ∈
        (mainRun ⟨none, false, none, [(DEPS_KEY, "5")],
          some ⟨[(VERSION_FILENAME, "5")]⟩, .connError, fun _ => .fail []⟩).events ↔
      ((5 : Int) ≠ 5 ∨ false = true)) ∧
    (¬ ((5 : Int) ≠ 5 ∨ false = true) →
      (mainRun ⟨none, false, none, [(DEPS_KEY, "5")],
        some ⟨[(VERSION_FILENAME, "5")]⟩, .connError, fun _ => .fail []⟩).result = .ok () ∧
      (mainRun ⟨none, false, none, [(DEPS_KEY, "5")],
        some ⟨[(VERSION_FILENAME, "5")]⟩, .connError, fun _ => .fail []⟩).events.filter
          isSyncEvent = [] ∧
      (mainRun ⟨none, false, none, [(DEPS_KEY, "5")],
        some ⟨[(VERSION_FILENAME, "5")]⟩, .connError, fun _ => .fail []⟩).events.getLast? =
        some (Event.print ("Already have correct version: " ++ intDecimal 5))) :=
  c1_download_iff _ 5 5 rfl rfl rfl

/-- C2.  Whenever a sync is triggered, the trace restricted to sync
events on success is exactly one GET, one extraction and one marker
write in that order; on any failure during fetch or install the run
aborts with no marker write anywhere in the trace. -/
theorem c2_sync_sequence (inp : MainIn) (cur des : Int)
    (hskip : truthy inp.skipEnv = false)
    (hcur : getCurrentVersion (ensureDir inp.dir).1 = .ok cur)
    (hdes : getDesiredVersion inp.depsVars = .ok des)
    (htrig : des ≠ cur ∨ inp.force = true) :
    ((mainRun inp).result = .ok () →
      (mainRun inp).events.filter isSyncEvent =
        [Event.urlopen (buildUrl (effBaseUrl inp.baseUrlOpt) des), Event.extractArchive,
          Event.writeMarker des]) ∧
    (∀ e, (mainRun inp).result = .error e →
      ∀ w, Event.writeMarker w ∉ (mainRun inp).events) := by
  obtain ⟨hres, _, hevs, _⟩ := mainRun_triggered_fields inp cur des hskip hcur hdes htrig
  have hpre := benign_read_events inp.dir (ensureDir inp.dir).1 cur
    ("Version in DEPS file: " ++ intDecimal des)
  have hpd := performDownload_filter inp.net inp.extract (effBaseUrl inp.baseUrlOpt) des
    (ensureDir inp.dir).1
  have hfilpre : ((ensureDir inp.dir).2 ++ foundEv (ensureDir inp.dir).1 cur ++
      [Event.print ("Version in DEPS file: " ++ intDecimal des)]).filter isSyncEvent = [] := by
    rw [List.filter_eq_nil_iff]
    intro e he
    simp [(hpre e he).1]
  constructor
  · intro hok
    rw [hres] at hok
    rw [hevs, List.filter_append, hfilpre, List.nil_append]
    exact hpd.1 hok
  · intro e herr w hmem
    rw [hres] at herr
    rw [hevs] at hmem
    rcases List.mem_append.mp hmem with hmem | hmem
    · exact absurd rfl ((hpre _ hmem).2.2.2 w)
    · exact hpd.2 e herr w hmem

/-- Concrete successful sync used as the C2 witness input. -/
def exC2 : MainIn :=
  ⟨none, false, none, [(DEPS_KEY, "1")], none, .ok (some "3") [7, 7, 7],
    fun _ => .ok [("b.wav", "y")]⟩

/-- C2, witness: a successful sync from no marker to version 1 performs
exactly the GET, the extraction and the marker write, in that order. -/
theorem c2_witness :
    (mainRun exC2).events.filter isSyncEvent =
      [Event.urlopen (buildUrl (effBaseUrl none) 1), Event.extractArchive,
        Event.writeMarker 1] :=
  (c2_sync_sequence exC2 0 1 rfl rfl rfl (Or.inl (by decide))).1 rfl

/-- Fetch failures enumerated by the claim: connection error, HTTP error
status, missing Content-Length, unparsable Content-Length. -/
def fetchFailure : NetResult → Bool
  | .connError => true
  | .httpError _ => true
  | .ok none _ => true
  | .ok (some h) _ => (pyInt? h).isNone

/-- C3.  Every enumerated fetch failure is fatal and leaves the
resources directory, and hence the version marker inside it, exactly as
before; no removal of the resources directory happens on such a path,
and the temporary directory is still cleaned up. -/
theorem c3_fetch_failure_safe (net : NetResult) (hfail : fetchFailure net = true) :
    ∀ (extract : List Nat → ExtractRes) (baseUrl : String) (v : Int) (dir : Option ResDir),
      (performDownload net extract baseUrl v dir).dir = dir ∧
      (∃ e, (performDownload net extract baseUrl v dir).result = .error e) ∧
      Event.rmtreeDownloads ∉ (performDownload net extract baseUrl v dir).events ∧
      (∀ w, Event.writeMarker w ∉ (performDownload net extract baseUrl v dir).events) ∧
      (performDownload net extract baseUrl v dir).tempDirExists = false := by
  intro extract baseUrl v dir
  cases net with
  | connError =>
    refine ⟨rfl, ⟨.urlError, rfl⟩, ?_, ?_, rfl⟩ <;> simp [performDownload]
  | httpError c =>
    refine ⟨rfl, ⟨.httpError c, rfl⟩, ?_, ?_, rfl⟩ <;> simp [performDownload]
  | ok header body =>
    have hrc : ∃ e2, (readChunks header body defaultChunkSize).1 = .error e2 := by
      cases header with
      | none => exact ⟨.attributeError, rfl⟩
      | some h =>
        have hp : pyInt? h = none := by
          simpa [fetchFailure, Option.isNone_iff_eq_none] using hfail
        exact ⟨.valueError, by simp [readChunks, hp]⟩
    obtain ⟨e2, hrc⟩ := hrc
    refine ⟨?_, ⟨e2, ?_⟩, ?_, ?_, ?_⟩ <;> simp [performDownload, hrc]

/-- C3, witness: a response with no Content-Length header aborts and the
resources directory is untouched. -/
theorem c3_witness :
    (performDownload (.ok none [1, 2]) (fun _ => .ok []) "http://h/p" 5
        (some ⟨[("x", "y")]⟩)).dir = some ⟨[("x", "y")]⟩ ∧
    Event.rmtreeDownloads ∉ (performDownload (.ok none [1, 2]) (fun _ => .ok [])
        "http://h/p" 5 (some ⟨[("x", "y")]⟩)).events :=
  ⟨(c3_fetch_failure_safe (.ok none [1, 2]) rfl (fun _ => .ok []) "http://h/p" 5
      (some ⟨[("x", "y")]⟩)).1,
    (c3_fetch_failure_safe (.ok none [1, 2]) rfl (fun _ => .ok []) "http://h/p" 5
      (some ⟨[("x", "y")]⟩)).2.2.1⟩

/-- C4.  On every invocation of the download routine, success or any
exception path, the temporary directory is created first, no longer
exists on exit, and its removal is the last effect. -/
theorem c4_temp_dir_cleanup :
    ∀ (net : NetResult) (extract : List Nat → ExtractRes) (baseUrl : String) (v : Int)
      (dir : Option ResDir),
      (performDownload net extract baseUrl v dir).tempDirExists = false ∧
      (performDownload net extract baseUrl v dir).events.head? = some Event.mkTempDir ∧
      (performDownload net extract baseUrl v dir).events.getLast? = some Event.rmTempDir := by
  intro net extract baseUrl v dir
  obtain ⟨rest, hre⟩ := performDownload_events_shape net extract baseUrl v dir
  refine ⟨?_, by rw [hre]; rfl, ?_⟩
  · cases net with
    | connError => rfl
    | httpError c => rfl
    | ok header body =>
      cases hrc : (readChunks header body defaultChunkSize).1 with
      | error e => simp [performDownload, hrc]
      | ok n =>
        cases hex : extract body with
        | fail pf => simp [performDownload, hrc, hex]
        | ok files => simp [performDownload, hrc, hex]
  · cases net with
    | connError => rfl
    | httpError c => rfl
    | ok header body =>
      cases hrc : (readChunks header body defaultChunkSize).1 with
      | error e => simp only [performDownload, hrc]; rfl
      | ok n =>
        cases hex : extract body with
        | fail pf => simp only [performDownload, hrc, hex]; rfl
        | ok files => simp only [performDownload, hrc, hex]; rfl

/-- C5.  The archive URL appends the fixed prefix, the decimal version
and the fixed extension to the base URL, injecting a slash when the
base lacks one; for base http colon slash slash host slash path and
version 5 the result keeps the path segment, unlike the naive urljoin
of the slashless base, which replaces it. -/
theorem c5_url_join :
    (∀ (base : String) (v : Int), endsWithSlash base = false →
      buildUrl base v = base ++ "/" ++ (FILENAME_STEM ++ intDecimal v ++ EXTENSION)) ∧
    buildUrl "http://host/path" 5 = "http://host/path/webrtc-resources-5.tgz" ∧
    urljoin "http://host/path" (archiveName 5) = "http://host/webrtc-resources-5.tgz" ∧
    ¬ buildUrl "http://host/path" 5 = "http://host/webrtc-resources-5.tgz" := by
  refine ⟨?_, by decide, by decide, by decide⟩
  intro base v h
  rw [buildUrl_no_slash base v h]
  rfl

/-- C5, witness: the general slash injection applied to the concrete
base of the claim. -/
theorem c5_witness :
    endsWithSlash "http://host/path" = false ∧
    buildUrl "http://host/path" 5 =
      "http://host/path" ++ "/" ++ (FILENAME_STEM ++ intDecimal 5 ++ EXTENSION) :=
  ⟨by decide, c5_url_join.1 "http://host/path" 5 (by decide)⟩

/-- C6.  A missing marker file reads as version zero, and a manifest
desiring version zero over a missing marker with the force flag unset
is classified up to date: the run succeeds with no download and reports
version zero. -/
theorem c6_missing_marker :
    (∀ dir : Option ResDir, markerOf dir = none → getCurrentVersion dir = .ok 0) ∧
    (∀ inp : MainIn, truthy inp.skipEnv = false → inp.force = false →
      markerOf (ensureDir inp.dir).1 = none →
      getDesiredVersion inp.depsVars = .ok 0 →
      Event.mkTempDir ∉ (mainRun inp).events ∧
      (mainRun inp).result = .ok () ∧
      (mainRun inp).events.getLast? =
        some (Event.print ("Already have correct version: " ++ intDecimal 0))) := by
  have h1 : ∀ dir : Option ResDir, markerOf dir = none → getCurrentVersion dir = .ok 0 := by
    intro dir hm
    simp [getCurrentVersion, hm]
  refine ⟨h1, ?_⟩
  intro inp hskip hforce hm hdes
  have hfacts := mainRun_up_to_date_facts inp 0 0 hskip (h1 _ hm) hdes (by simp [hforce])
  exact ⟨hfacts.2.2.2.1, hfacts.1, hfacts.2.2.2.2.2.2.2⟩

/-- Concrete input for the C6 witness: desired version zero, no
resources directory, force unset. -/
def exC6 : MainIn :=
  ⟨none, false, none, [(DEPS_KEY, "0")], none, .connError, fun _ => .fail []⟩

/-- C6, witness: the missing marker reads as zero and the concrete run
stays up to date. -/
theorem c6_witness :
    getCurrentVersion none = .ok 0 ∧
    Event.mkTempDir ∉ (mainRun exC6).events ∧
    (mainRun exC6).result = .ok () ∧
    (mainRun exC6).events.getLast? =
      some (Event.print ("Already have correct version: " ++ intDecimal 0)) :=
  ⟨c6_missing_marker.1 none rfl, c6_missing_marker.2 exC6 rfl rfl rfl rfl⟩

/-- Concrete input for the C7 counterexample: versions agree at zero and
force is unset, yet the missing resources directory gets created. -/
def exC7 : MainIn :=
  ⟨none, false, none, [(DEPS_KEY, "0")], none, .connError, fun _ => .fail []⟩

/-- C7, counterexample.  With the desired version equal to the current
version and the force flag unset, the run still mutates the filesystem
when the resources directory is absent: it creates the directory before
comparing versions. -/
theorem c7_counterexample :
    truthy exC7.skipEnv = false ∧ exC7.force = false ∧
    getCurrentVersion (ensureDir exC7.dir).1 = .ok 0 ∧
    getDesiredVersion exC7.depsVars = .ok 0 ∧
    exC7.dir = none ∧
    (mainRun exC7).dir = some ⟨[]⟩ ∧
    Event.mkdirDownloads ∈ (mainRun exC7).events := by
  refine ⟨rfl, rfl, rfl, rfl, rfl, rfl, ?_⟩
  decide

/-- C7, amended.  When the desired version equals the current version
and force is unset, the only filesystem mutation is ensuring the
resources directory exists, created empty when absent: an existing
directory is returned untouched, nothing is removed or written inside
it, no temporary directory is made and no network request occurs. -/
theorem c7_no_mutation_amended (inp : MainIn) (cur des : Int)
    (hskip : truthy inp.skipEnv = false)
    (hcur : getCurrentVersion (ensureDir inp.dir).1 = .ok cur)
    (hdes : getDesiredVersion inp.depsVars = .ok des)
    (heq : des = cur) (hforce : inp.force = false) :
    (mainRun inp).result = .ok () ∧
    (mainRun inp).dir = (ensureDir inp.dir).1 ∧
    (∀ d : ResDir, inp.dir = some d → (mainRun inp).dir = some d) ∧
    Event.rmtreeDownloads ∉ (mainRun inp).events ∧
    (∀ w, Event.writeMarker w ∉ (mainRun inp).events) ∧
    Event.mkTempDir ∉ (mainRun inp).events ∧
    (∀ u, Event.urlopen u ∉ (mainRun inp).events) := by
  have hfacts := mainRun_up_to_date_facts inp cur des hskip hcur hdes (by simp [heq, hforce])
  refine ⟨hfacts.1, hfacts.2.1, ?_, hfacts.2.2.2.2.1, hfacts.2.2.2.2.2.1,
    hfacts.2.2.2.1, hfacts.2.2.2.2.2.2.1⟩
  intro d hd
  rw [hfacts.2.1, hd]
  rfl

/-- Concrete input for the C7 witness: an existing directory already at
the desired version. -/
def exC7b : MainIn :=
  ⟨none, false, none, [(DEPS_KEY, "3")],
    some ⟨[(VERSION_FILENAME, "3"), ("a.wav", "x")]⟩, .connError, fun _ => .fail []⟩

/-- C7, witness: the amended statement at a concrete up to date run
with an existing directory. -/
theorem c7_witness :
    (mainRun exC7b).result = .ok () ∧
    (mainRun exC7b).dir = some ⟨[(VERSION_FILENAME, "3"), ("a.wav", "x")]⟩ ∧
    Event.rmtreeDownloads ∉ (mainRun exC7b).events :=
  ⟨(c7_no_mutation_amended exC7b 3 3 rfl rfl rfl rfl rfl).1,
    (c7_no_mutation_amended exC7b 3 3 rfl rfl rfl rfl rfl).2.2.1 _ rfl,
    (c7_no_mutation_amended exC7b 3 3 rfl rfl rfl rfl rfl).2.2.2.1⟩

theorem performDownload_success_dir (net : NetResult) (extract : List Nat → ExtractRes)
    (baseUrl : String) (v : Int) (dir : Option ResDir)
    (h : (performDownload net extract baseUrl v dir).result = .ok ()) :
    ∃ files, (performDownload net extract baseUrl v dir).dir =
      some ⟨setFile files VERSION_FILENAME (intDecimal v)⟩ := by
  cases net with
  | connError => exact absurd h (by simp [performDownload])
  | httpError c => exact absurd h (by simp [performDownload])
  | ok header body =>
    cases hrc : (readChunks header body defaultChunkSize).1 with
    | error e => exact absurd h (by simp [performDownload, hrc])
    | ok n =>
      cases hex : extract body with
      | fail pf => exact absurd h (by simp [performDownload, hrc, hex])
      | ok files => exact ⟨files, by simp [performDownload, hrc, hex]⟩

theorem lookup_setFile (files : List (String × String)) (n c : String) :
    (setFile files n c).lookup n = some c := by
  simp [setFile, List.lookup]

/-- C8.  After a successful sync to version V the marker reads back as
V, and a second run over the resulting directory with the same manifest
and force unset stays up to date: no temporary directory is made, hence
no download, and it ends reporting version V. -/
theorem c8_roundtrip (inp : MainIn) (cur V : Int)
    (hskip : truthy inp.skipEnv = false)
    (hcur : getCurrentVersion (ensureDir inp.dir).1 = .ok cur)
    (hdes : getDesiredVersion inp.depsVars = .ok V)
    (htrig : V ≠ cur ∨ inp.force = true)
    (hsucc : (mainRun inp).result = .ok ()) :
    getCurrentVersion (mainRun inp).dir = .ok V ∧
    ∀ (net2 : NetResult) (extract2 : List Nat → ExtractRes) (b2 : Option String),
      Event.mkTempDir ∉
        (mainRun ⟨none, false, b2, inp.depsVars, (mainRun inp).dir, net2, extract2⟩).events ∧
      (mainRun ⟨none, false, b2, inp.depsVars, (mainRun inp).dir, net2, extract2⟩).events.getLast? =
        some (Event.print ("Already have correct version: " ++ intDecimal V)) := by
  obtain ⟨hres, hdir, _, _⟩ := mainRun_triggered_fields inp cur V hskip hcur hdes htrig
  rw [hres] at hsucc
  obtain ⟨files, hfiles⟩ := performDownload_success_dir _ _ _ _ _ hsucc
  have hcur2 : getCurrentVersion (mainRun inp).dir = .ok V := by
    rw [hdir, hfiles]
    simp [getCurrentVersion, markerOf, lookup_setFile, pyInt?_intDecimal]
  refine ⟨hcur2, fun net2 extract2 b2 => ?_⟩
  have hdirEq : (ensureDir (⟨none, false, b2, inp.depsVars, (mainRun inp).dir, net2,
      extract2⟩ : MainIn).dir).1 = (mainRun inp).dir := by
    show (ensureDir (mainRun inp).dir).1 = (mainRun inp).dir
    rw [hdir, hfiles]
    rfl
  have hcurI : getCurrentVersion (ensureDir (⟨none, false, b2, inp.depsVars,
      (mainRun inp).dir, net2, extract2⟩ : MainIn).dir).1 = .ok V := by
    rw [hdirEq]; exact hcur2
  have hfacts := mainRun_up_to_date_facts
    ⟨none, false, b2, inp.depsVars, (mainRun inp).dir, net2, extract2⟩ V V rfl hcurI hdes
    (by simp)
  exact ⟨hfacts.2.2.2.1, hfacts.2.2.2.2.2.2.2⟩

/-- Concrete input for the C8 witness: a successful sync to version 2. -/
def exC8 : MainIn :=
  ⟨none, false, none, [(DEPS_KEY, "2")], none, .ok (some "2") [9, 9],
    fun _ => .ok [("c.bin", "z")]⟩

/-- C8, witness: the concrete sync records version 2 and a second run
over its result makes no temporary directory. -/
theorem c8_witness :
    getCurrentVersion (mainRun exC8).dir = .ok 2 ∧
    Event.mkTempDir ∉
      (mainRun ⟨none, false, none, exC8.depsVars, (mainRun exC8).dir, .connError,
        fun _ => .fail []⟩).events :=
  ⟨(c8_roundtrip exC8 0 2 rfl rfl rfl (Or.inl (by decide)) rfl).1,
    ((c8_roundtrip exC8 0 2 rfl rfl rfl (Or.inl (by decide)) rfl).2 .connError
      (fun _ => .fail []) none).1⟩

end Webrtc
